import Mathlib

/-!
# Shallow embedding of the `linqscript` library (`src/linq.ts`)

The source is a TypeScript class `LINQArray<T> extends Array<T>` offering
LINQ-style query operations, plus a free function `AsLinq` that wraps a
plain array.  We embed a `LINQArray<T>` receiver as a Lean `List α`
(JS arrays are ordered, zero-indexed sequences) and translate each method
body, delegating to the List functions that have the semantics of the JS
array primitive that the method calls (`map`, `filter`, `flatMap`, `find`,
`some`, `slice`, spread, `Set`/`Map` insertion-order collections).

Where the JS host semantics has value-dependent quirks that a parametric
model cannot see, we additionally embed the concrete instantiation that
exhibits them, faithfully:

* `new LINQArray<T>(...arr)` (the body of `AsLinq`) calls the inherited
  `Array` constructor.  When `arr` spreads to exactly one argument and that
  argument is a number, the constructor does NOT produce a one-element
  array: it produces a hole-filled array of that length (or throws
  `RangeError` when the number is negative or not a valid array length).
  `AsLinqInt` below embeds the number instantiation exactly; the parametric
  `AsLinq` embeds the behaviour for every other argument shape.

* `GroupBy` tests `key in groups` on a plain object literal; the JS `in`
  operator also sees the inherited `Object.prototype` properties, so a key
  such as `"toString"` takes the "existing key" branch and then calls
  `.push` on an inherited function value, which throws a `TypeError`.
  `GroupByJS` embeds the string-key instantiation with this prototype-chain
  behaviour; the parametric `GroupBy` embeds the behaviour on keys that are
  not inherited property names.

Stateful aspects (which methods mutate the receiver) are embedded by
`*St` state-passing versions returning `(result, receiver after the call)`,
following which JS array primitive the method body delegates to
(`push` and `sort` mutate in place; `map`, `filter`, `flatMap`, `reduce`,
`slice`, `find`, `some`, spread do not mutate their receiver).
-/

namespace LINQ

/-- A relative index for JS `Array.prototype.slice`: a negative index counts
back from the end (clamped at 0), a non-negative one is clamped at `len`. -/
def jsSliceIdx (len : Nat) (i : Int) : Nat :=
  if i < 0 then len - (-i).toNat else min i.toNat len

/-- JS `arr.slice(start, stop)`: the elements from resolved index `start`
(inclusive) to resolved index `stop` (exclusive). -/
def jsSlice (s : List α) (start stop : Int) : List α :=
  (s.take (jsSliceIdx s.length stop)).drop (jsSliceIdx s.length start)

/-- `Add(item)`: `this.push(item)`. Returns nothing; the receiver after the
call (JS `push` appends in place) is the result here. -/
def Add (s : List α) (item : α) : List α := s ++ [item]

/-- `AddRange(arr)`: `this.push(...arr)`. Receiver after the call. -/
def AddRange (s : List α) (arr : List α) : List α := s ++ arr

/-- `Select(predicate)`: `this.map(predicate)`. -/
def Select (s : List α) (f : α → β) : List β := s.map f

/-- `Where(predicate)`: `this.filter(predicate)`. -/
def Where (s : List α) (p : α → Bool) : List α := s.filter p

/-- `SelectMany(predicate)`: `this.flatMap(predicate)`. -/
def SelectMany (s : List α) (f : α → List β) : List β := s.flatMap f

/-- `Count()`: `this.length`. -/
def Count (s : List α) : Nat := s.length

/-- `ToArray()`: `[...this]`, a copy with the same elements in order
(as a value, the same list). -/
def ToArray (s : List α) : List α := s

/-- `FirstOrDefault(predicate?)`:
`predicate ? this.find(predicate) : this.length ? this[0] : undefined`.
`undefined` is embedded as `none`. -/
def FirstOrDefault (s : List α) (p : Option (α → Bool)) : Option α :=
  match p with
  | some pred => s.find? pred
  | none => if s.length ≠ 0 then s.head? else none

/-- The message of the `InvalidOperationException` thrown by `First`. -/
def notFoundMsg : String := "No element satisfies the condition in predicate."

/-- `First(predicate?)`: calls `FirstOrDefault` and throws
`InvalidOperationException` when the result is `undefined`. -/
def First (s : List α) (p : Option (α → Bool)) : Except String α :=
  match FirstOrDefault s p with
  | none => .error notFoundMsg
  | some x => .ok x

/-- `Any(predicate?)`: `predicate ? this.some(predicate) : this.length > 0`. -/
def Any (s : List α) (p : Option (α → Bool)) : Bool :=
  match p with
  | some pred => s.any pred
  | none => s.length > 0

/-- `Take(i)`: `this.slice(0, i)`. -/
def Take (s : List α) (i : Int) : List α := jsSlice s 0 i

/-- `Skip(i)`: `this.slice(i, this.length)`. -/
def Skip (s : List α) (i : Int) : List α := jsSlice s i s.length

/-- `AsLinq(arr)`: `new LINQArray<T>(...arr)`.  For every argument list
other than a single number this is the array of the arguments, i.e. a copy
of `arr`; the single-number instantiation is embedded separately by
`AsLinqInt`. -/
def AsLinq (arr : List α) : List α := arr

/-- `AsLinq` at element type `number` (embedded over `Int`), exactly:
`new Array(n)` with a single numeric argument `n` makes a hole-filled array
of length `n` (holes embedded as `none`), and throws `RangeError` unless
`n` is a valid array length (an integer with `0 ≤ n < 2^32`). -/
def AsLinqInt (arr : List Int) : Except String (List (Option Int)) :=
  match arr with
  | [n] =>
    if 0 ≤ n ∧ n < 4294967296 then .ok (List.replicate n.toNat none)
    else .error "RangeError: Invalid array length"
  | _ => .ok (arr.map some)

/-- One insertion into a JS `Set` (insertion-ordered, no duplicates):
`[...new Set(l)]` is `l.foldl setInsert []`. -/
def setInsert [DecidableEq α] (acc : List α) (x : α) : List α :=
  if x ∈ acc then acc else acc ++ [x]

/-- `Distinct()`: `AsLinq([...new Set(this)])`.  A JS `Set` keeps the first
occurrence of each value, in insertion order. -/
def Distinct [DecidableEq α] (s : List α) : List α :=
  AsLinq (s.foldl setInsert [])

/-- `Distinct` at element type `number`, exactly: the `AsLinq` call hits the
single-number `Array` constructor whenever the deduplicated array has
exactly one element. -/
def DistinctInt (s : List Int) : Except String (List (Option Int)) :=
  AsLinqInt (s.foldl setInsert [])

/-- One `Map.set(k, v)` on a JS `Map` embedded as an insertion-ordered
association list: an existing key keeps its position and gets the new
value; a new key is appended. -/
def mapInsert [DecidableEq κ] (acc : List (κ × α)) (k : κ) (v : α) :
    List (κ × α) :=
  if k ∈ acc.map Prod.fst then
    acc.map (fun p => if p.1 = k then (p.1, v) else p)
  else acc ++ [(k, v)]

/-- `new Map(pairs)` for a list of key-value pairs: insert each in order. -/
def toMap [DecidableEq κ] (pairs : List (κ × α)) : List (κ × α) :=
  pairs.foldl (fun acc p => mapInsert acc p.1 p.2) []

/-- `DistinctBy(predicate)`:
`AsLinq([...new Map(this.map(i => [predicate(i), i])).values()])`. -/
def DistinctBy [DecidableEq κ] (s : List α) (k : α → κ) : List α :=
  AsLinq ((toMap (s.map (fun i => (k i, i)))).map Prod.snd)

/-- `DistinctBy` at element type `number`, exactly: the `AsLinq` call hits
the single-number `Array` constructor whenever the value list of the map
has exactly one element. -/
def DistinctByInt (s : List Int) (k : Int → Int) :
    Except String (List (Option Int)) :=
  AsLinqInt ((toMap (s.map (fun i => (k i, i)))).map Prod.snd)

/-- `GroupBy(predicate)`: the `reduce` over a plain object `groups`,
embedded as an insertion-ordered association list; `key in groups` tests key
presence, `groups[key].push(item)` appends to that key's array, and
`groups[key] = [item]` adds the key at the end.  This parametric version
embeds the behaviour for keys that are not inherited `Object.prototype`
property names; `GroupByJS` embeds the string-key instantiation with the
prototype chain. -/
def GroupBy [DecidableEq κ] (s : List α) (k : α → κ) : List (κ × List α) :=
  s.foldl (fun groups item =>
    let key := k item
    if key ∈ groups.map Prod.fst then
      groups.map (fun p => if p.1 = key then (p.1, p.2 ++ [item]) else p)
    else groups ++ [(key, [item])]) []

/-- The enumerable and non-enumerable properties a plain object literal
inherits from `Object.prototype`, all visible to the JS `in` operator. -/
def protoProps : List String :=
  ["constructor", "hasOwnProperty", "isPrototypeOf", "propertyIsEnumerable",
   "toLocaleString", "toString", "valueOf", "__proto__",
   "__defineGetter__", "__defineSetter__", "__lookupGetter__",
   "__lookupSetter__"]

/-- `GroupBy` at key type `string`, exactly: `key in groups` is true when
`key` is an own key of `groups` OR an inherited `Object.prototype` property
name; in the latter case `groups[key]` is the inherited value (a function
or the prototype itself), and calling `.push` on it throws a `TypeError`. -/
def GroupByJS (s : List α) (k : α → String) :
    Except String (List (String × List α)) :=
  s.foldlM (fun groups item =>
    let key := k item
    if key ∈ groups.map Prod.fst then
      .ok (groups.map (fun p => if p.1 = key then (p.1, p.2 ++ [item]) else p))
    else if key ∈ protoProps then
      .error "TypeError: groups[key].push is not a function"
    else .ok (groups ++ [(key, [item])])) []

/-- `OrderBy(predicate)`:
`this.sort((a, b) => predicate(a) > predicate(b) ? 1 : -1)`.
The comparator reports `a` after `b` exactly when `k a > k b`, so every
comparison the host sort makes is answered by the total preorder
`k a ≤ k b`; the in-place sort is embedded as `mergeSort` under that
relation. -/
def OrderBy [LinearOrder κ] (s : List α) (k : α → κ) : List α :=
  s.mergeSort (fun a b => !decide (k b < k a))

/-- `OrderByDescending(predicate)`:
`this.sort((a, b) => predicate(a) > predicate(b) ? -1 : 1)`, the same with
the comparator flipped. -/
def OrderByDescending [LinearOrder κ] (s : List α) (k : α → κ) : List α :=
  s.mergeSort (fun a b => !decide (k a < k b))

/-- Spec-side description of first-occurrence deduplication (`Distinct`
"retains the first occurrence of each value, in first-occurrence order"):
keep an element iff its value has not been seen before. -/
def keepFirst [DecidableEq α] (seen : List α) : List α → List α
  | [] => []
  | x :: xs => if x ∈ seen then keepFirst seen xs else x :: keepFirst (x :: seen) xs

/-! ### State-passing versions

Each `*St` returns `(result, receiver after the call)`.  The second
component records whether the JS primitive the method delegates to mutates
`this`: `push` and `sort` do; `map`, `filter`, `flatMap`, `reduce`, `Set`
and `Map` construction from `this`, `find`, `some`, `slice`, `length` and
spread do not. -/

/-- `Add` mutates the receiver (`push`). -/
def AddSt (s : List α) (item : α) : Unit × List α := ((), Add s item)

/-- `AddRange` mutates the receiver (`push(...arr)`). -/
def AddRangeSt (s : List α) (arr : List α) : Unit × List α := ((), AddRange s arr)

/-- `Select` does not mutate the receiver (`map`). -/
def SelectSt (s : List α) (f : α → β) : List β × List α := (Select s f, s)

/-- `Where` does not mutate the receiver (`filter`). -/
def WhereSt (s : List α) (p : α → Bool) : List α × List α := (Where s p, s)

/-- `SelectMany` does not mutate the receiver (`flatMap`). -/
def SelectManySt (s : List α) (f : α → List β) : List β × List α :=
  (SelectMany s f, s)

/-- `GroupBy` does not mutate the receiver (`reduce` into a fresh object). -/
def GroupBySt [DecidableEq κ] (s : List α) (k : α → κ) :
    List (κ × List α) × List α := (GroupBy s k, s)

/-- `Distinct` does not mutate the receiver (spread into a fresh `Set`). -/
def DistinctSt [DecidableEq α] (s : List α) : List α × List α := (Distinct s, s)

/-- `DistinctBy` does not mutate the receiver (fresh `Map` over `map`). -/
def DistinctBySt [DecidableEq κ] (s : List α) (k : α → κ) :
    List α × List α := (DistinctBy s k, s)

/-- `First` does not mutate the receiver (`find` / indexing). -/
def FirstSt (s : List α) (p : Option (α → Bool)) :
    Except String α × List α := (First s p, s)

/-- `FirstOrDefault` does not mutate the receiver. -/
def FirstOrDefaultSt (s : List α) (p : Option (α → Bool)) :
    Option α × List α := (FirstOrDefault s p, s)

/-- `Any` does not mutate the receiver (`some` / `length`). -/
def AnySt (s : List α) (p : Option (α → Bool)) : Bool × List α := (Any s p, s)

/-- `Take` does not mutate the receiver (`slice`). -/
def TakeSt (s : List α) (n : Int) : List α × List α := (Take s n, s)

/-- `Skip` does not mutate the receiver (`slice`). -/
def SkipSt (s : List α) (n : Int) : List α × List α := (Skip s n, s)

/-- `Count` does not mutate the receiver (`length`). -/
def CountSt (s : List α) : Nat × List α := (Count s, s)

/-- `ToArray` does not mutate the receiver (spread). -/
def ToArraySt (s : List α) : List α × List α := (ToArray s, s)

/-- `OrderBy` sorts the receiver in place (`sort`) and returns it. -/
def OrderBySt [LinearOrder κ] (s : List α) (k : α → κ) : List α × List α :=
  (OrderBy s k, OrderBy s k)

/-- `OrderByDescending` sorts the receiver in place and returns it. -/
def OrderByDescendingSt [LinearOrder κ] (s : List α) (k : α → κ) :
    List α × List α := (OrderByDescending s k, OrderByDescending s k)

/-! ## Helper lemmas -/

/-- `Take` reduces to a `List.take` at the resolved slice index. -/
theorem take_eq_take (s : List α) (n : Int) :
    Take s n = s.take (jsSliceIdx s.length n) := by
  unfold Take jsSlice jsSliceIdx
  simp

/-- `Skip` reduces to a `List.drop` at the resolved slice index. -/
theorem skip_eq_drop (s : List α) (n : Int) :
    Skip s n = s.drop (jsSliceIdx s.length n) := by
  unfold Skip jsSlice
  have hlen : jsSliceIdx s.length (s.length : Int) = s.length := by
    unfold jsSliceIdx
    rw [if_neg (by omega)]
    simp
  rw [hlen, List.take_length]

/-- `keepFirst` only depends on the membership of `seen`. -/
theorem keepFirst_congr [DecidableEq α] :
    ∀ (l s₁ s₂ : List α), (∀ y, y ∈ s₁ ↔ y ∈ s₂) →
      keepFirst s₁ l = keepFirst s₂ l
  | [], _, _, _ => rfl
  | x :: xs, s₁, s₂, h => by
    unfold keepFirst
    by_cases hx : x ∈ s₁
    · rw [if_pos hx, if_pos ((h x).mp hx), keepFirst_congr xs s₁ s₂ h]
    · rw [if_neg hx, if_neg (fun c => hx ((h x).mpr c)),
        keepFirst_congr xs (x :: s₁) (x :: s₂) (by intro y; simp [h y])]

/-- A `Set`-insertion fold appends exactly the unseen first occurrences. -/
theorem foldl_setInsert_eq [DecidableEq α] :
    ∀ (l acc : List α), l.foldl setInsert acc = acc ++ keepFirst acc l
  | [], acc => by simp [keepFirst]
  | x :: xs, acc => by
    unfold keepFirst
    simp only [List.foldl_cons]
    by_cases hx : x ∈ acc
    · rw [if_pos hx, show setInsert acc x = acc from if_pos hx,
        foldl_setInsert_eq xs acc]
    · rw [if_neg hx, show setInsert acc x = acc ++ [x] from if_neg hx,
        foldl_setInsert_eq xs (acc ++ [x]),
        keepFirst_congr xs (acc ++ [x]) (x :: acc) (by intro y; simp; tauto)]
      simp

/-- Membership in `keepFirst`. -/
theorem mem_keepFirst [DecidableEq α] :
    ∀ (l seen : List α) (x : α), x ∈ keepFirst seen l ↔ x ∈ l ∧ x ∉ seen
  | [], seen, x => by simp [keepFirst]
  | y :: ys, seen, x => by
    unfold keepFirst
    by_cases hy : y ∈ seen
    · rw [if_pos hy, mem_keepFirst ys seen x, List.mem_cons]
      by_cases hxy : x = y
      · subst hxy
        simp [hy]
      · simp [hxy]
    · rw [if_neg hy, List.mem_cons, mem_keepFirst ys (y :: seen) x,
        List.mem_cons, List.mem_cons]
      by_cases hxy : x = y
      · subst hxy
        simp [hy]
      · simp [hxy]

/-- `keepFirst` constructs a duplicate-free list. -/
theorem nodup_keepFirst [DecidableEq α] :
    ∀ (l seen : List α), (keepFirst seen l).Nodup
  | [], _ => List.nodup_nil
  | x :: xs, seen => by
    unfold keepFirst
    by_cases hx : x ∈ seen
    · rw [if_pos hx]
      exact nodup_keepFirst xs seen
    · rw [if_neg hx]
      refine List.nodup_cons.mpr ⟨?_, nodup_keepFirst xs (x :: seen)⟩
      intro hmem
      exact ((mem_keepFirst xs (x :: seen) x).mp hmem).2 (List.mem_cons_self x _)

/-- On a duplicate-free list disjoint from `seen`, `keepFirst` keeps
everything. -/
theorem keepFirst_of_nodup [DecidableEq α] :
    ∀ (l seen : List α), l.Nodup → (∀ x ∈ l, x ∉ seen) → keepFirst seen l = l
  | [], _, _, _ => rfl
  | x :: xs, seen, hnd, hdis => by
    unfold keepFirst
    rw [if_neg (hdis x (List.mem_cons_self x xs))]
    congr 1
    refine keepFirst_of_nodup xs (x :: seen) (List.Nodup.of_cons hnd) ?_
    intro y hy
    rw [List.mem_cons]
    rintro (rfl | hmem)
    · exact (List.nodup_cons.mp hnd).1 hy
    · exact hdis y (List.mem_cons_of_mem _ hy) hmem

/-- Membership in a `Set`-insertion fold. -/
theorem mem_foldl_setInsert [DecidableEq α] (l acc : List α) (x : α) :
    x ∈ l.foldl setInsert acc ↔ x ∈ acc ∨ x ∈ l := by
  rw [foldl_setInsert_eq, List.mem_append, mem_keepFirst]
  tauto

/-- Unfolding `toMap` over a snoc. -/
theorem toMap_concat [DecidableEq κ] (pl : List (κ × α)) (q : κ × α) :
    toMap (pl ++ [q]) = mapInsert (toMap pl) q.1 q.2 := by
  unfold toMap
  rw [List.foldl_append]
  rfl

/-- The keys of one `Map` insertion are a `Set` insertion of the key. -/
theorem map_fst_mapInsert [DecidableEq κ] (acc : List (κ × α)) (k₀ : κ) (v : α) :
    (mapInsert acc k₀ v).map Prod.fst = setInsert (acc.map Prod.fst) k₀ := by
  unfold mapInsert setInsert
  by_cases hk : k₀ ∈ acc.map Prod.fst
  · rw [if_pos hk, if_pos hk, List.map_map]
    refine List.map_congr_left ?_
    intro p _
    by_cases h : p.1 = k₀ <;> simp [h]
  · rw [if_neg hk, if_neg hk]
    simp

/-- The key list of the built `Map` is the `Set`-fold of the input keys. -/
theorem map_fst_toMap [DecidableEq κ] (pl : List (κ × α)) :
    (toMap pl).map Prod.fst = (pl.map Prod.fst).foldl setInsert [] := by
  induction pl using List.reverseRecOn with
  | nil => rfl
  | append_singleton pl q ih =>
    rw [toMap_concat, map_fst_mapInsert, ih, List.map_append,
      List.foldl_append]
    rfl

/-- A `Map` insertion adds no entries beyond the old ones and the new
key-value pair. -/
theorem mem_mapInsert [DecidableEq κ] {q : κ × α} {acc : List (κ × α)}
    {k₀ : κ} {v : α} (h : q ∈ mapInsert acc k₀ v) : q ∈ acc ∨ q = (k₀, v) := by
  unfold mapInsert at h
  by_cases hk : k₀ ∈ acc.map Prod.fst
  · rw [if_pos hk] at h
    rcases List.mem_map.mp h with ⟨p, hp, hq⟩
    by_cases h1 : p.1 = k₀
    · right
      rw [← hq]
      simp [h1]
    · left
      rw [← hq]
      simp only [if_neg h1]
      exact hp
  · rw [if_neg hk] at h
    rcases List.mem_append.mp h with h | h
    · exact Or.inl h
    · right
      simpa using h

/-- Every entry of the `Map` built by `DistinctBy` pairs an element with
its own key. -/
theorem toMap_key_inv [DecidableEq κ] (k : α → κ) :
    ∀ (s : List α) (acc : List (κ × α)), (∀ p ∈ acc, p.1 = k p.2) →
      ∀ p ∈ (s.map fun i => (k i, i)).foldl
          (fun acc p => mapInsert acc p.1 p.2) acc, p.1 = k p.2
  | [], _, hacc => by simpa using hacc
  | i :: s, acc, hacc => by
    simp only [List.map_cons, List.foldl_cons]
    refine toMap_key_inv k s (mapInsert acc (k i) i) ?_
    intro p hp
    rcases mem_mapInsert hp with h | h
    · exact hacc p h
    · rw [h]

/-- `toMap_concat` with the appended pair destructured. -/
theorem toMap_concat' [DecidableEq κ] (pl : List (κ × α)) (k₀ : κ) (v : α) :
    toMap (pl ++ [(k₀, v)]) = mapInsert (toMap pl) k₀ v :=
  toMap_concat pl (k₀, v)

/-- An entry is in the built `Map` iff it is the key paired with the LAST
input value carrying that key. -/
theorem mem_toMap_iff [DecidableEq κ] (pl : List (κ × α)) (key : κ) (v : α) :
    (key, v) ∈ toMap pl ↔
      (pl.filter (fun p => decide (p.1 = key))).getLast? = some (key, v) := by
  induction pl using List.reverseRecOn with
  | nil => simp [toMap]
  | append_singleton pl q ih =>
    obtain ⟨q1, q2⟩ := q
    rw [toMap_concat', List.filter_append]
    by_cases hk : q1 = key
    · subst hk
      have hfq : List.filter (fun p => decide (p.1 = q1)) [(q1, q2)]
          = [(q1, q2)] := by simp
      rw [hfq, List.getLast?_concat]
      unfold mapInsert
      by_cases hmem : q1 ∈ (toMap pl).map Prod.fst
      · rw [if_pos hmem]
        constructor
        · intro h
          rcases List.mem_map.mp h with ⟨p, _, hq⟩
          by_cases h1 : p.1 = q1
          · rw [if_pos h1] at hq
            have hv : q2 = v := congrArg Prod.snd hq
            rw [hv]
          · rw [if_neg h1] at hq
            exact absurd (congrArg Prod.fst hq) h1
        · intro h
          rcases List.mem_map.mp hmem with ⟨p, hp, hp1⟩
          refine List.mem_map.mpr ⟨p, hp, ?_⟩
          rw [if_pos hp1, hp1]
          exact Option.some.inj h
      · rw [if_neg hmem, List.mem_append]
        constructor
        · rintro (h | h)
          · exact absurd (List.mem_map.mpr ⟨(q1, v), h, rfl⟩) hmem
          · rw [List.mem_singleton] at h
            rw [← h]
        · intro h
          refine Or.inr ?_
          rw [List.mem_singleton, ← Option.some.inj h]
    · have hfq : List.filter (fun p => decide (p.1 = key)) [(q1, q2)]
          = [] := by simp [hk]
      rw [hfq, List.append_nil, ← ih]
      unfold mapInsert
      by_cases hmem : q1 ∈ (toMap pl).map Prod.fst
      · rw [if_pos hmem]
        constructor
        · intro h
          rcases List.mem_map.mp h with ⟨p, hp, hq⟩
          by_cases h1 : p.1 = q1
          · rw [if_pos h1] at hq
            refine absurd ?_ hk
            rw [← h1]
            exact congrArg Prod.fst hq
          · rw [if_neg h1] at hq
            rw [← hq]
            exact hp
        · intro h
          refine List.mem_map.mpr ⟨(key, v), h, ?_⟩
          rw [if_neg (fun c => hk c.symm)]
      · rw [if_neg hmem, List.mem_append]
        constructor
        · rintro (h | h)
          · exact h
          · rw [List.mem_singleton] at h
            exact absurd (congrArg Prod.fst h).symm hk
        · exact Or.inl

/-- Unfolding `GroupBy` over a snoc. -/
theorem groupBy_concat [DecidableEq κ] (k : α → κ) (s : List α) (x : α) :
    GroupBy (s ++ [x]) k =
      if k x ∈ (GroupBy s k).map Prod.fst then
        (GroupBy s k).map (fun p => if p.1 = k x then (p.1, p.2 ++ [x]) else p)
      else GroupBy s k ++ [(k x, [x])] := by
  unfold GroupBy
  rw [List.foldl_append]
  rfl

/-- The key list of `GroupBy` is the `Set`-fold of the selected keys. -/
theorem map_fst_groupBy [DecidableEq κ] (k : α → κ) (s : List α) :
    (GroupBy s k).map Prod.fst = (s.map k).foldl setInsert [] := by
  induction s using List.reverseRecOn with
  | nil => rfl
  | append_singleton s x ih =>
    rw [groupBy_concat, List.map_append, List.foldl_append]
    show _ = setInsert ((s.map k).foldl setInsert []) (k x)
    by_cases h : k x ∈ (GroupBy s k).map Prod.fst
    · rw [if_pos h, List.map_map]
      have hfst : (GroupBy s k).map
          (Prod.fst ∘ fun p => if p.1 = k x then (p.1, p.2 ++ [x]) else p)
          = (GroupBy s k).map Prod.fst :=
        List.map_congr_left (fun p _ => by by_cases h1 : p.1 = k x <;> simp [h1])
      rw [hfst, ih]
      rw [ih] at h
      rw [show setInsert ((s.map k).foldl setInsert []) (k x)
          = (s.map k).foldl setInsert [] from if_pos h]
    · rw [if_neg h, List.map_append, ih]
      rw [ih] at h
      rw [show setInsert ((s.map k).foldl setInsert []) (k x)
          = (s.map k).foldl setInsert [] ++ [k x] from if_neg h]
      rfl

/-- A key occurs among `GroupBy`'s keys iff some element selects it. -/
theorem mem_map_fst_groupBy [DecidableEq κ] (k : α → κ) (s : List α) (key : κ) :
    key ∈ (GroupBy s k).map Prod.fst ↔ ∃ x ∈ s, k x = key := by
  rw [map_fst_groupBy, mem_foldl_setInsert]
  simp

/-- An entry is in `GroupBy`'s mapping iff its key is selected by some
element and its value collects, in order, exactly the elements selecting
that key. -/
theorem mem_groupBy_iff [DecidableEq κ] (k : α → κ) (s : List α) (key : κ)
    (vs : List α) :
    (key, vs) ∈ GroupBy s k ↔
      (∃ x ∈ s, k x = key) ∧ vs = s.filter (fun y => decide (k y = key)) := by
  induction s using List.reverseRecOn generalizing vs with
  | nil => simp [GroupBy]
  | append_singleton s x ih =>
    rw [groupBy_concat, List.filter_append]
    by_cases hk : k x = key
    · have hfx : List.filter (fun y => decide (k y = key)) [x] = [x] := by
        simp [hk]
      rw [hfx]
      have hex : ∃ y ∈ s ++ [x], k y = key := ⟨x, by simp, hk⟩
      by_cases hmem : k x ∈ (GroupBy s k).map Prod.fst
      · rw [if_pos hmem]
        constructor
        · intro h
          rcases List.mem_map.mp h with ⟨p, hp, hq⟩
          by_cases h1 : p.1 = k x
          · rw [if_pos h1] at hq
            have hpk : p.1 = key := congrArg Prod.fst hq
            have hpv : p.2 ++ [x] = vs := congrArg Prod.snd hq
            have hpmem : (key, p.2) ∈ GroupBy s k := by
              rw [← hpk]
              simpa using hp
            have hfil := ((ih p.2).mp hpmem).2
            exact ⟨hex, by rw [← hpv, hfil]⟩
          · rw [if_neg h1] at hq
            exact absurd (by rw [congrArg Prod.fst hq, ← hk]) h1
        · rintro ⟨-, hvs⟩
          rcases List.mem_map.mp hmem with ⟨p, hp, hp1⟩
          refine List.mem_map.mpr ⟨p, hp, ?_⟩
          rw [if_pos hp1]
          have hpmem : (key, p.2) ∈ GroupBy s k := by
            rw [← hk, ← hp1]
            simpa using hp
          have hfil := ((ih p.2).mp hpmem).2
          rw [hp1, hk, hvs, hfil]
      · rw [if_neg hmem, List.mem_append]
        have hfil : s.filter (fun y => decide (k y = key)) = [] := by
          rw [List.filter_eq_nil_iff]
          intro a ha
          simp only [decide_eq_true_eq]
          intro hka
          exact hmem ((mem_map_fst_groupBy k s (k x)).mpr ⟨a, ha, by rw [hka, hk]⟩)
        constructor
        · rintro (h | h)
          · have := ((ih vs).mp h).1
            rcases this with ⟨a, ha, hka⟩
            exact absurd ((mem_map_fst_groupBy k s (k x)).mpr
              ⟨a, ha, by rw [hka, hk]⟩) hmem
          · rw [List.mem_singleton] at h
            have h2 : vs = [x] := congrArg Prod.snd h
            exact ⟨hex, by rw [h2, hfil, List.nil_append]⟩
        · rintro ⟨-, hvs⟩
          refine Or.inr ?_
          rw [List.mem_singleton]
          rw [hvs, hfil]
          rw [← hk]
          rfl
    · have hfx : List.filter (fun y => decide (k y = key)) [x] = [] := by
        simp [hk]
      rw [hfx, List.append_nil]
      have hex_iff : (∃ y ∈ s ++ [x], k y = key) ↔ ∃ y ∈ s, k y = key := by
        simp only [List.mem_append, List.mem_singleton]
        constructor
        · rintro ⟨y, hy | rfl, hky⟩
          · exact ⟨y, hy, hky⟩
          · exact absurd hky hk
        · rintro ⟨y, hy, hky⟩
          exact ⟨y, Or.inl hy, hky⟩
      rw [hex_iff]
      by_cases hmem : k x ∈ (GroupBy s k).map Prod.fst
      · rw [if_pos hmem]
        rw [← ih vs]
        constructor
        · intro h
          rcases List.mem_map.mp h with ⟨p, hp, hq⟩
          by_cases h1 : p.1 = k x
          · rw [if_pos h1] at hq
            have : p.1 = key := congrArg Prod.fst hq
            exact absurd (by rw [← h1, this]) hk
          · rw [if_neg h1] at hq
            rw [← hq]
            exact hp
        · intro h
          refine List.mem_map.mpr ⟨(key, vs), h, ?_⟩
          rw [if_neg (fun c => hk c.symm)]
      · rw [if_neg hmem, List.mem_append]
        rw [← ih vs]
        constructor
        · rintro (h | h)
          · exact h
          · rw [List.mem_singleton] at h
            exact absurd (congrArg Prod.fst h).symm hk
        · exact Or.inl

/-- On inputs whose keys avoid the inherited `Object.prototype` property
names, the JS-faithful `GroupByJS` agrees with the parametric `GroupBy`
(the fold never takes the `TypeError` branch). -/
theorem foldlM_groupStep (k : α → String) :
    ∀ (s : List α) (acc : List (String × List α)),
      (∀ x ∈ s, k x ∉ protoProps) →
      s.foldlM (fun groups item =>
        let key := k item
        if key ∈ groups.map Prod.fst then
          Except.ok (ε := String)
            (groups.map (fun p => if p.1 = key then (p.1, p.2 ++ [item]) else p))
        else if key ∈ protoProps then
          Except.error "TypeError: groups[key].push is not a function"
        else Except.ok (groups ++ [(key, [item])])) acc
      = Except.ok (s.foldl (fun groups item =>
          let key := k item
          if key ∈ groups.map Prod.fst then
            groups.map (fun p => if p.1 = key then (p.1, p.2 ++ [item]) else p)
          else groups ++ [(key, [item])]) acc)
  | [], acc, _ => rfl
  | x :: s, acc, h => by
    rw [List.foldlM_cons, List.foldl_cons]
    simp only
    by_cases hmem : k x ∈ acc.map Prod.fst
    · rw [if_pos hmem, if_pos hmem]
      exact foldlM_groupStep k s _ (fun y hy => h y (List.mem_cons_of_mem x hy))
    · rw [if_neg hmem, if_neg hmem,
        if_neg (h x (List.mem_cons_self x s))]
      exact foldlM_groupStep k s _ (fun y hy => h y (List.mem_cons_of_mem x hy))

/-! ## Claim theorems -/

/-- **C1.** `First(S, P)` throws the NotFound `InvalidOperationException`
iff no element of `S` satisfies `P` (for omitted `P`: iff `S` is empty);

otherwise it returns the first element of `S`, in iteration order, that
satisfies `P` (for omitted `P`: the first element of `S`). -/
theorem C1_first_notFound_iff (s : List α) (p : α → Bool) :
    (First s (some p) = .error notFoundMsg ↔ ∀ x ∈ s, ¬ p x) ∧
    (First s none = .error notFoundMsg ↔ s = []) ∧
    (∀ x, First s (some p) = .ok x ↔
      p x ∧ ∃ pre post, s = pre ++ x :: post ∧ ∀ y ∈ pre, ¬ p y) ∧
    (∀ x, First s none = .ok x ↔ ∃ rest, s = x :: rest) := by
  have herr : ∀ q, First s q = .error notFoundMsg ↔ FirstOrDefault s q = none := by
    intro q
    unfold First
    cases FirstOrDefault s q <;> simp
  have hok : ∀ q x, First s q = .ok x ↔ FirstOrDefault s q = some x := by
    intro q x
    unfold First
    cases FirstOrDefault s q <;> simp
  refine ⟨?_, ?_, ?_, ?_⟩
  · rw [herr]
    unfold FirstOrDefault
    rw [List.find?_eq_none]
  · rw [herr]
    unfold FirstOrDefault
    cases s <;> simp
  · intro x
    rw [hok]
    unfold FirstOrDefault
    rw [List.find?_eq_some]
    simp
  · intro x
    rw [hok]
    unfold FirstOrDefault
    cases s <;> simp

/-- Witness for C1 at concrete inputs: on `[1, 2, 3]` with predicate
`2 ≤ x`, `First` returns `2` (first match) and with the always-false
predicate it throws; on `[]` with omitted predicate it throws. -/
theorem C1_first_notFound_iff_witness :
    First ([1, 2, 3] : List Int) (some (fun x => decide (2 ≤ x))) = .ok 2 ∧
    First ([1, 2, 3] : List Int) (some (fun _ => false)) = .error notFoundMsg ∧
    First ([] : List Int) none = .error notFoundMsg :=
  ⟨((C1_first_notFound_iff [1, 2, 3] (fun x => decide (2 ≤ x))).2.2.1 2).mpr
      ⟨by decide, [1], [3], rfl, by decide⟩,
   (C1_first_notFound_iff [1, 2, 3] (fun _ => false)).1.mpr (by decide),
   (C1_first_notFound_iff ([] : List Int) (fun _ => false)).2.1.mpr rfl⟩

/-- **C2 counterexample.** The claim says `Take(S, n)` is empty for every
`n ≤ 0`, but `slice(0, n)` resolves a negative `n` from the end of the
array: `Take([1, 2], -1) = [1] ≠ []`. -/
theorem C2_take_nonpos_counterexample :
    (-1 : Int) ≤ 0 ∧ Take ([1, 2] : List Int) (-1) = [1] ∧
      Take ([1, 2] : List Int) (-1) ≠ [] := by
  refine ⟨by decide, by decide, by decide⟩

/-- **C2 (amended).** `Take(S, n)` returns the first `min(n, length S)`
elements of `S`, in preserved order, for every `n ≥ 0` (in particular
`Take(S, 0)` is empty); for `n < 0` it returns the first
`max(length S + n, 0)` elements (JS negative slice-index semantics), so it
is empty when `n ≤ -length S` but not in general for `n ≤ 0`. -/
theorem C2_take_spec (s : List α) (n : Int) :
    (0 ≤ n → Take s n = s.take (min n.toNat s.length)) ∧
    (n < 0 → Take s n = s.take (s.length - (-n).toNat)) ∧
    Take s 0 = [] ∧
    (n ≤ -(s.length : Int) → Take s n = []) := by
  have hTake : ∀ m : Int, Take s m = s.take (jsSliceIdx s.length m) :=
    fun m => take_eq_take s m
  refine ⟨?_, ?_, ?_, ?_⟩
  · intro h
    rw [hTake]
    unfold jsSliceIdx
    rw [if_neg (by omega)]
  · intro h
    rw [hTake]
    unfold jsSliceIdx
    rw [if_pos h]
  · rw [hTake]
    unfold jsSliceIdx
    simp
  · intro h
    rw [hTake]
    unfold jsSliceIdx
    rcases lt_or_le n 0 with h0 | h0
    · rw [if_pos h0]
      have : s.length ≤ (-n).toNat := by omega
      simp [Nat.sub_eq_zero_of_le this]
    · have hs : s.length = 0 := by omega
      rw [List.length_eq_zero.mp hs]
      simp

/-- Witness for C2 (amended) at concrete inputs: `Take([1,2,3], 2) = [1,2]`
and `Take([1,2], -5) = []`. -/
theorem C2_take_spec_witness :
    Take ([1, 2, 3] : List Int) 2 = [1, 2] ∧ Take ([1, 2] : List Int) (-5) = [] :=
  ⟨by rw [(C2_take_spec ([1, 2, 3] : List Int) 2).1 (by decide)]; decide,
   (C2_take_spec ([1, 2] : List Int) (-5)).2.2.2 (by decide)⟩

/-- **C7.** For `0 ≤ n ≤ length S`, `Take(S, n) ++ Skip(S, n) = S`. -/
theorem C7_take_skip_partition (s : List α) (n : Int) (h0 : 0 ≤ n)
    (hn : n ≤ (s.length : Int)) : Take s n ++ Skip s n = s := by
  have hidx : jsSliceIdx s.length n = n.toNat := by
    unfold jsSliceIdx
    rw [if_neg (by omega)]
    omega
  rw [take_eq_take, skip_eq_drop, hidx, List.take_append_drop]

/-- Witness for C7: `Take([1,2,3,4,5], 2) ++ Skip([1,2,3,4,5], 2)`
reconstructs the list. -/
theorem C7_take_skip_partition_witness :
    Take ([1, 2, 3, 4, 5] : List Int) 2 ++ Skip ([1, 2, 3, 4, 5] : List Int) 2
      = [1, 2, 3, 4, 5] :=
  C7_take_skip_partition [1, 2, 3, 4, 5] 2 (by decide) (by decide)

/-- **C8 counterexample.** The claim quantifies over every key selector,
but `key in groups` sees the inherited `Object.prototype` properties: at
key `"toString"` the code calls `.push` on the inherited function and
throws a `TypeError` instead of returning the mapping
`{toString: ["a"]}`. -/
theorem C8_groupBy_proto_counterexample :
    GroupByJS ["a"] (fun _ => "toString")
      = .error "TypeError: groups[key].push is not a function" := rfl

/-- **C8 (amended).** For key selectors whose keys avoid the inherited
`Object.prototype` property names (the parametric model; the JS-faithful
`GroupByJS` then agrees, third conjunct), `GroupBy` maps each first
occurrence of a key to a new entry, appends every element to its key's
sequence in the order of `S`, and iterates keys in first-occurrence order:
the key list is `Distinct` of the key projection, and an entry `(key, vs)`
exists iff some element selects `key` and `vs` collects exactly the
elements selecting `key`, in `S`'s order. -/
theorem C8_groupBy_spec [DecidableEq κ] (s : List α) (k : α → κ) :
    (GroupBy s k).map Prod.fst = Distinct (Select s k) ∧
    (∀ key vs, (key, vs) ∈ GroupBy s k ↔
      (∃ x ∈ s, k x = key) ∧ vs = Where s (fun y => decide (k y = key))) ∧
    (∀ (t : List β) (g : β → String), (∀ x ∈ t, g x ∉ protoProps) →
      GroupByJS t g = .ok (GroupBy t g)) := by
  refine ⟨?_, ?_, ?_⟩
  · rw [map_fst_groupBy]
    rfl
  · intro key vs
    exact mem_groupBy_iff k s key vs
  · intro t g hg
    unfold GroupByJS GroupBy
    exact foldlM_groupStep g t [] hg

/-- Witness for C8 (amended) at the spec's own example: grouping
`[(1, "yellow"), (2, "red"), (3, "yellow")]` by colour stores
`[(1, "yellow"), (3, "yellow")]` under `"yellow"`, and on safe string
keys the JS-faithful model returns the parametric grouping. -/
theorem C8_groupBy_spec_witness :
    ("yellow", [(1, "yellow"), (3, "yellow")]) ∈
      GroupBy ([(1, "yellow"), (2, "red"), (3, "yellow")] : List (Nat × String))
        Prod.snd ∧
    GroupByJS (["a", "b", "a"] : List String) (fun y => y)
      = .ok (GroupBy ["a", "b", "a"] (fun y => y)) := by
  constructor
  · refine ((@C8_groupBy_spec String (Nat × String) Nat _
      [(1, "yellow"), (2, "red"), (3, "yellow")]
      Prod.snd).2.1 "yellow" [(1, "yellow"), (3, "yellow")]).mpr ?_
    exact ⟨⟨(1, "yellow"), by decide, rfl⟩, by decide⟩
  · exact (@C8_groupBy_spec Nat Nat String _ [] id).2.2 ["a", "b", "a"]
      (fun y => y) (by decide)

/-- **C6.** `OrderBy` returns (and leaves as the receiver, via the
state-passing embedding) a permutation of `S` that is non-decreasing in
the selected key; `OrderByDescending` the same, non-increasing. -/
theorem C6_orderBy_sorted [LinearOrder κ] (s : List α) (k : α → κ) :
    (OrderBy s k).Perm s ∧
    (OrderBy s k).Pairwise (fun a b => k a ≤ k b) ∧
    (OrderByDescending s k).Perm s ∧
    (OrderByDescending s k).Pairwise (fun a b => k b ≤ k a) ∧
    OrderBySt s k = (OrderBy s k, OrderBy s k) ∧
    OrderByDescendingSt s k = (OrderByDescending s k, OrderByDescending s k) := by
  refine ⟨List.mergeSort_perm s _, ?_, List.mergeSort_perm s _, ?_, rfl, rfl⟩
  · have h : (s.mergeSort (fun a b => !decide (k b < k a))).Pairwise
        (fun a b => (!decide (k b < k a)) = true) := by
      refine List.sorted_mergeSort ?_ ?_ s
      · intro a b c hab hbc
        simp only [Bool.not_eq_true', decide_eq_false_iff_not, not_lt] at *
        exact le_trans hab hbc
      · intro a b
        simp only [Bool.or_eq_true, Bool.not_eq_true', decide_eq_false_iff_not,
          not_lt]
        exact le_total (k a) (k b)
    exact List.Pairwise.imp (fun hab => by simpa using hab) h
  · have h : (s.mergeSort (fun a b => !decide (k a < k b))).Pairwise
        (fun a b => (!decide (k a < k b)) = true) := by
      refine List.sorted_mergeSort ?_ ?_ s
      · intro a b c hab hbc
        simp only [Bool.not_eq_true', decide_eq_false_iff_not, not_lt] at *
        exact le_trans hbc hab
      · intro a b
        simp only [Bool.or_eq_true, Bool.not_eq_true', decide_eq_false_iff_not,
          not_lt]
        exact (le_total (k b) (k a)).imp id id
    exact List.Pairwise.imp (fun hab => by simpa using hab) h

/-- **C4 counterexample.** At element type `number` the claim fails
because of the `Array` constructor bug inside `AsLinq` (see C3):
`DistinctBy([3], x => x)` is a three-hole array rather than `[3]`. -/
theorem C4_distinctBy_counterexample :
    DistinctByInt [3] (fun x => x) = .ok [none, none, none] ∧
    DistinctByInt [3] (fun x => x) ≠ .ok [some 3] := by
  have h1 : DistinctByInt [3] (fun x => x) = .ok [none, none, none] := rfl
  refine ⟨h1, ?_⟩
  rw [h1]
  intro h
  exact absurd (Except.ok.inj h) (by decide)

/-- **C4 (amended).** Whenever the `AsLinq` wrap is a copy (every case
except a singleton result at element type `number`, see C3), `DistinctBy`
keeps exactly one element per distinct key, in the order in which the keys
first occur (its image under `k` is `Distinct` of the key projection), and
the element it keeps for a key is the LAST element of `S` with that key. -/
theorem C4_distinctBy_spec [DecidableEq κ] (s : List α) (k : α → κ) :
    (DistinctBy s k).map k = Distinct (Select s k) ∧
    ∀ x ∈ DistinctBy s k,
      (Where s (fun y => decide (k y = k x))).getLast? = some x := by
  have hinv : ∀ p ∈ toMap (s.map fun i => (k i, i)), p.1 = k p.2 := by
    intro p hp
    exact toMap_key_inv k s [] (by simp) p hp
  constructor
  · show ((toMap (s.map fun i => (k i, i))).map Prod.snd).map k = _
    rw [List.map_map]
    have hmap : (toMap (s.map fun i => (k i, i))).map (k ∘ Prod.snd)
        = (toMap (s.map fun i => (k i, i))).map Prod.fst :=
      List.map_congr_left (fun p hp => (hinv p hp).symm)
    rw [hmap, map_fst_toMap, List.map_map]
    rfl
  · intro x hx
    rcases List.mem_map.mp hx with ⟨p, hp, hpx⟩
    have hp1 : p = (k x, x) := by
      have h2 : p.2 = x := hpx
      have h1 : p.1 = k x := by rw [hinv p hp, h2]
      obtain ⟨a, b⟩ := p
      simp only at h1 h2
      rw [h1, h2]
    rw [hp1] at hp
    have hlast := (mem_toMap_iff (s.map fun i => (k i, i)) (k x) x).mp hp
    rw [List.filter_map, List.getLast?_map] at hlast
    have hlast' : Option.map (fun i => (k i, i))
        ((s.filter fun y => decide (k y = k x)).getLast?) = some (k x, x) :=
      hlast
    show ((s.filter fun y => decide (k y = k x)).getLast?) = some x
    rcases hgl : (s.filter fun y => decide (k y = k x)).getLast? with _ | y
    · rw [hgl] at hlast'
      simp at hlast'
    · rw [hgl] at hlast'
      have hxy : (k y, y) = (k x, x) := by
        simpa using hlast'
      have : y = x := congrArg Prod.snd hxy
      rw [this]

/-- Witness for C4 (amended) at a concrete input: keyed on the first
component, `[(1,10), (2,20), (1,30)]` deduplicates to `[(1,30), (2,20)]`
(last occurrence per key, keys in first-occurrence order), and the element
kept for key `1` is the last pair with first component `1`. -/
theorem C4_distinctBy_spec_witness :
    DistinctBy ([(1, 10), (2, 20), (1, 30)] : List (Nat × Nat)) Prod.fst
      = [(1, 30), (2, 20)] ∧
    (Where ([(1, 10), (2, 20), (1, 30)] : List (Nat × Nat))
      (fun y => decide (y.1 = 1))).getLast? = some (1, 30) := by
  refine ⟨by decide, ?_⟩
  exact (C4_distinctBy_spec ([(1, 10), (2, 20), (1, 30)] : List (Nat × Nat))
    Prod.fst).2 (1, 30) (by decide)

/-- **C5 counterexample.** At element type `number`, the claim fails
because of the `Array` constructor bug inside `AsLinq` (see C3): `[7]` has
no duplicates, yet `Distinct([7])` is a seven-hole array rather than `[7]`,
and its elements do not appear in the source. -/
theorem C5_distinct_counterexample :
    ([7] : List Int).Nodup ∧
    DistinctInt [7] = .ok (List.replicate 7 none) ∧
    DistinctInt [7] ≠ .ok [some 7] := by
  have h1 : DistinctInt [7] = .ok (List.replicate 7 none) := rfl
  refine ⟨by decide, h1, ?_⟩
  rw [h1]
  intro h
  exact absurd (Except.ok.inj h) (by decide)

/-- **C5 (amended).** Whenever the `AsLinq` wrap is a copy (every case
except a singleton dedup result at element type `number`, see C3/C5
counterexample), `Distinct(S)` retains exactly the first occurrence of
each value in first-occurrence order (`keepFirst [] S`); hence it has no
two equal elements, every element of it appears in `S`, and it equals `S`
when `S` has no duplicates. -/
theorem C5_distinct_spec [DecidableEq α] (s : List α) :
    Distinct s = keepFirst [] s ∧
    (Distinct s).Nodup ∧
    (∀ x ∈ Distinct s, x ∈ s) ∧
    (s.Nodup → Distinct s = s) := by
  have h0 : Distinct s = keepFirst [] s := by
    unfold Distinct AsLinq
    rw [foldl_setInsert_eq s []]
    simp
  refine ⟨h0, ?_, ?_, ?_⟩
  · rw [h0]
    exact nodup_keepFirst s []
  · intro x hx
    rw [h0] at hx
    exact ((mem_keepFirst s [] x).mp hx).1
  · intro hnd
    rw [h0]
    exact keepFirst_of_nodup s [] hnd (by simp)

/-- Witness for C5 (amended) at concrete inputs: `Distinct` deduplicates
`["a", "b", "a"]` to `["a", "b"]` and is the identity on the
duplicate-free `["a", "b"]`. -/
theorem C5_distinct_spec_witness :
    Distinct (["a", "b", "a"] : List String) = ["a", "b"] ∧
    Distinct (["a", "b"] : List String) = ["a", "b"] :=
  ⟨by rw [(C5_distinct_spec (["a", "b", "a"] : List String)).1]; decide,
   (C5_distinct_spec (["a", "b"] : List String)).2.2.2 (by decide)⟩

/-- **C3 (code bug).** `AsLinq` is claimed to copy its argument, but its
body `new LINQArray<T>(...arr)` hits the single-numeric-argument special
case of the inherited `Array` constructor: `AsLinq([5])` at element type
`number` is a five-hole array, not `[5]`, and `AsLinq([-1])` throws a
`RangeError` instead of returning `[-1]`. -/
theorem C3_asLinq_constructor_bug :
    AsLinqInt [5] = .ok (List.replicate 5 none) ∧
    AsLinqInt [5] ≠ .ok [some 5] ∧
    AsLinqInt [-1] = .error "RangeError: Invalid array length" ∧
    AsLinqInt [4, 5] = .ok [some 4, some 5] := by
  have h1 : AsLinqInt [5] = .ok (List.replicate 5 none) := rfl
  refine ⟨h1, ?_, rfl, rfl⟩
  rw [h1]
  intro h
  exact absurd (Except.ok.inj h) (by decide)

/-- **C9 (code bug).** First's NotFound is claimed to be the library's
only failure, but at element type `number` the `Array` constructor inside
`Distinct` / `DistinctBy` throws a `RangeError` whenever the deduplicated
result is a single negative number (and yields a hole array for a single
non-negative one), and `GroupBy` throws a `TypeError` whenever a key is an
inherited `Object.prototype` property name such as `"toString"`. -/
theorem C9_failures_beyond_first :
    DistinctInt [-1, -1] = .error "RangeError: Invalid array length" ∧
    DistinctInt [7, 7] = .ok (List.replicate 7 none) ∧
    DistinctByInt [-2] (fun x => x) = .error "RangeError: Invalid array length" ∧
    GroupByJS ["a"] (fun _ => "toString")
      = .error "TypeError: groups[key].push is not a function" := by
  refine ⟨rfl, rfl, rfl, rfl⟩

/-- **C10.** Every operation other than `Add`, `AddRange`, `OrderBy`,
`OrderByDescending` leaves the receiver unmodified: the state-passing
embeddings of `Select`, `Where`, `SelectMany`, `GroupBy`, `Distinct`,
`DistinctBy`, `First`, `FirstOrDefault`, `Any`, `Take`, `Skip`, `Count`
and `ToArray` return the receiver unchanged as the post-state. -/
theorem C10_non_mutating [DecidableEq α] [DecidableEq κ] (s : List α)
    (f : α → β) (g : α → List β) (p : α → Bool) (q : Option (α → Bool))
    (k : α → κ) (n : Int) :
    (SelectSt s f).2 = s ∧ (WhereSt s p).2 = s ∧ (SelectManySt s g).2 = s ∧
    (GroupBySt s k).2 = s ∧ (DistinctSt s).2 = s ∧ (DistinctBySt s k).2 = s ∧
    (FirstSt s q).2 = s ∧ (FirstOrDefaultSt s q).2 = s ∧ (AnySt s q).2 = s ∧
    (TakeSt s n).2 = s ∧ (SkipSt s n).2 = s ∧ (CountSt s).2 = s ∧
    (ToArraySt s).2 = s :=
  ⟨rfl, rfl, rfl, rfl, rfl, rfl, rfl, rfl, rfl, rfl, rfl, rfl, rfl⟩

end LINQ
